import Mathlib

/-!
Shallow embedding of the `collection-utils` library.

Source files embedded here:
* `src/map/mod.ts` — class `CollectionMap<K, V> extends Map<K, V>` with the
  compute-family operations (`compute`, `computeIfAbsent`, `computeIfPresent`,
  `computeIf`, `merge`, `replaceAll`), the conditional `delete` and `replace`,
  `get` with default, `hasValue`, `setAll`, `setIfAbsent` and `empty`.
* the `CollectionSet<V> extends Set<V>` class with `union`.

Modelling conventions:
* A TypeScript value of type `V | undefined` is modelled as `Option V`
  (`none` is the JS value `undefined`, the absence indicator).
* A native JS `Map` is a list of entries in insertion order; a stored value is
  an `Option V`, since a JS `Map` can hold `undefined` as the value of an
  existing entry.  `find?` is the raw entry lookup, `has` the native existence
  check, `superGet` the native `Map.prototype.get` (which yields `undefined`
  both when the key is missing and when the stored value is `undefined`).
* `Object.is` on values is modelled by decidable equality on `V`; JS `Map`
  key comparison (SameValueZero) is decidable equality on `K`.
* JS default parameters replace an explicitly passed `undefined` argument by
  the declared default.  The second parameter of `delete` and the third of
  `replace` default to a private symbol sentinel, so at the call boundary an
  argument `arg : Option (Option V)` (`none` = omitted, `some u` = passed `u`)
  collapses to `arg.join : Option V` inside the body, where `none` now means
  the sentinel and `some w` a real (non-`undefined`) comparison value.
* Mutating methods are embedded in state-passing style: they return the new
  map together with the original return value.  Where a claim is about how
  often a caller-supplied function is invoked, the embedding additionally
  returns the list of argument tuples the function was applied to, in call
  order.
-/

set_option autoImplicit false

namespace CollectionUtils

variable {K V W U : Type}

/-- State of a native JS `Map K V`: entries in insertion order.  A stored
value is `Option V`; `none` models a stored `undefined`. -/
structure JsMap (K V : Type) where
  entries : List (K × Option V)

namespace JsMap

variable [DecidableEq K]

/-- Raw entry lookup: the stored value of the entry for `k`, if one exists. -/
def find? (m : JsMap K V) (k : K) : Option (Option V) :=
  (m.entries.find? fun e => e.1 == k).map Prod.snd

/-- Native `Map.prototype.has`. -/
def has (m : JsMap K V) (k : K) : Bool :=
  (m.find? k).isSome

/-- Native `Map.prototype.get`: yields `undefined` both when the key is
missing and when the stored value is itself `undefined`. -/
def superGet (m : JsMap K V) (k : K) : Option V :=
  (m.find? k).join

/-- Native `Map.prototype.set`: updates the entry in place if the key exists,
otherwise appends a new entry. -/
def superSet (m : JsMap K V) (k : K) (v : Option V) : JsMap K V :=
  if m.has k then ⟨m.entries.map fun e => if e.1 = k then (k, v) else e⟩
  else ⟨m.entries ++ [(k, v)]⟩

/-- Native `Map.prototype.delete`: removes the entry for `k` and reports
whether an entry was removed. -/
def superDelete (m : JsMap K V) (k : K) : Bool × JsMap K V :=
  (m.has k, ⟨m.entries.filter fun e => !(e.1 == k)⟩)

/-- Well-formedness of a JS `Map` state: keys are pairwise distinct.  Every
map reachable through the native interface satisfies this. -/
abbrev WF (m : JsMap K V) : Prop :=
  (m.entries.map Prod.fst).Nodup

end JsMap

/-! The extended mapping: `CollectionMap` from `src/map/mod.ts`. -/

namespace CollectionMap

variable [DecidableEq K]

/-- `CollectionMap.get` (src/map/mod.ts line 239):
`super.has(key) ? super.get(key) : def`. -/
def get (m : JsMap K V) (key : K) (dflt : Option V) : Option V :=
  if m.has key then m.superGet key else dflt

/-- Body of `CollectionMap.delete` (src/map/mod.ts line 195).  The `value`
parameter is what the body observes after JS default-parameter substitution:
`none` is the `undefinedSymbol` sentinel, `some w` a real comparison value
(the body can never observe a plain `undefined` here, because JS replaces an
explicitly passed `undefined` by the declared default). -/
def delete [DecidableEq V] (m : JsMap K V) (key : K) (value : Option V) :
    Bool × JsMap K V :=
  match value with
  | none => m.superDelete key
  | some w =>
      if m.superGet key = some w then m.superDelete key else (false, m)

/-- Call boundary of `delete`: `arg = none` means the second argument was
omitted, `arg = some u` that `u` was passed.  The `Option.join` performs the
JS default-parameter collapse of an explicit `undefined` into the sentinel. -/
def deleteCall [DecidableEq V] (m : JsMap K V) (key : K)
    (arg : Option (Option V)) : Bool × JsMap K V :=
  delete m key arg.join

/-- `CollectionMap.compute` (src/map/mod.ts line 41).  The third component
records the arguments `mappingFunction` was applied to, in call order.  The
removal branch is `this.delete(key)`, the extended delete with the sentinel
default. -/
def compute [DecidableEq V] (m : JsMap K V) (key : K)
    (mappingFunction : K → Option V → Option V) :
    Option V × JsMap K V × List (K × Option V) :=
  let cur := get m key none
  match mappingFunction key cur with
  | none => (none, (delete m key none).2, [(key, cur)])
  | some v => (some v, m.superSet key (some v), [(key, cur)])

/-- `CollectionMap.computeIfAbsent` (src/map/mod.ts line 77).  The third
component records the keys `mappingFunction` was applied to. -/
def computeIfAbsent (m : JsMap K V) (key : K)
    (mappingFunction : K → Option V) :
    Option V × JsMap K V × List K :=
  if !(m.has key) then
    match mappingFunction key with
    | none => (none, m, [key])
    | some v => (some v, m.superSet key (some v), [key])
  else (m.superGet key, m, [])

/-- `CollectionMap.computeIfPresent` (src/map/mod.ts line 114).  The third
component records the arguments `remappingFunction` was applied to.  The
non-null assertion `super.get(key)!` is a type-level cast only, so the
function still observes the raw native-get result. -/
def computeIfPresent (m : JsMap K V) (key : K)
    (remappingFunction : K → Option V → Option V) :
    Option V × JsMap K V × List (K × Option V) :=
  if m.has key then
    let cur := m.superGet key
    match remappingFunction key cur with
    | none => (none, (m.superDelete key).2, [(key, cur)])
    | some v => (some v, m.superSet key (some v), [(key, cur)])
  else (none, m, [])

/-- `CollectionMap.computeIf` (src/map/mod.ts line 158): branches on the
native existence check; the present branch reads the current value through
`this.get(key)`.  The third and fourth components record the arguments
`present` and the keys `absent` were applied to. -/
def computeIf [DecidableEq V] (m : JsMap K V) (key : K)
    (present : K → Option V → Option V) (absent : K → Option V) :
    Option V × JsMap K V × List (K × Option V) × List K :=
  if m.has key then
    let cur := get m key none
    match present key cur with
    | none => (none, (m.superDelete key).2, [(key, cur)], [])
    | some v => (some v, m.superSet key (some v), [(key, cur)], [])
  else
    match absent key with
    | none => (none, (m.superDelete key).2, [], [key])
    | some v => (some v, m.superSet key (some v), [], [key])

/-- `CollectionMap.merge` (src/map/mod.ts line 287).  The `value` parameter
has TS type `Exclude<V, undefined>`, hence plain `V` here.  The third
component records the argument pairs `mappingFunction` was applied to. -/
def merge (m : JsMap K V) (key : K) (value : V)
    (mappingFunction : V → V → Option V) :
    Option V × JsMap K V × List (V × V) :=
  match m.superGet key with
  | none => (some value, m.superSet key (some value), [])
  | some prev =>
      match mappingFunction prev value with
      | none => (none, (m.superDelete key).2, [(prev, value)])
      | some v => (some v, m.superSet key (some v), [(prev, value)])

/-- Body of `CollectionMap.replace` (src/map/mod.ts line 325) after JS
default-parameter substitution: `previous = none` is the `undefinedSymbol`
sentinel, `previous = some w` a real comparison value. -/
def replace [DecidableEq V] (m : JsMap K V) (key : K) (value : Option V)
    (previous : Option V) : Option V × JsMap K V :=
  if m.has key && (previous.isNone || m.superGet key == previous) then
    (value, m.superSet key value)
  else (m.superGet key, m)

/-- Call boundary of `replace`: `previous = none` means the third argument
was omitted, `previous = some u` that `u` was passed; JS default parameters
collapse an explicit `undefined` into the sentinel. -/
def replaceCall [DecidableEq V] (m : JsMap K V) (key : K) (value : Option V)
    (previous : Option (Option V)) : Option V × JsMap K V :=
  replace m key value previous.join

/-- `CollectionMap.replaceAll` (src/map/mod.ts line 354): iterates the
entries in insertion order; the loop body updates the current key in place
(`super.set`) or deletes it (`super.delete`), and touches no other key, so
the net effect on the entry list is a `filterMap`. -/
def replaceAll (m : JsMap K V) (remapping : K → Option V → Option V) :
    JsMap K V :=
  ⟨m.entries.filterMap fun e =>
    (remapping e.1 e.2).map fun n => (e.1, some n)⟩

/-- `CollectionMap.setIfAbsent` (src/map/mod.ts line 424). -/
def setIfAbsent (m : JsMap K V) (key : K) (value : Option V) :
    Option V × JsMap K V :=
  if !(m.has key) then (value, m.superSet key value)
  else (m.superGet key, m)

/-- `CollectionMap.setAll` (src/map/mod.ts line 383).  The first loop visits
the entries of `m`; the second visits the entries of `other` whose key is
not in `keySet`, which by then holds exactly the keys of `m`.  The result
map starts empty and each insertion hits a fresh key (the keys of a JS map
are pairwise distinct), so the insertions are plain appends.  The second
component records the argument pairs `mergeFunction` was applied to, tagged
with the key being processed. -/
def setAll (m : JsMap K V) (other : JsMap K W)
    (mergeFunction : Option V → Option W → Option U) :
    JsMap K U × List (K × Option V × Option W) :=
  let rest := other.entries.filter fun e => !(m.has e.1)
  (⟨(m.entries.filterMap fun e =>
        (mergeFunction e.2 (other.superGet e.1)).map fun u => (e.1, some u)) ++
      rest.filterMap fun e =>
        (mergeFunction (m.superGet e.1) e.2).map fun u => (e.1, some u)⟩,
    (m.entries.map fun e => (e.1, e.2, other.superGet e.1)) ++
      rest.map fun e => (e.1, m.superGet e.1, e.2))

end CollectionMap

/-! The extended set: `CollectionSet` with `union`. -/

/-- State of a native JS `Set V`: members in insertion order. -/
structure JsSet (V : Type) where
  elems : List V

namespace JsSet

variable [DecidableEq V]

/-- Native `Set.prototype.has`. -/
def has (s : JsSet V) (v : V) : Bool :=
  s.elems.contains v

/-- Native `Set.prototype.add`: appends the value unless it is already a
member. -/
def add (s : JsSet V) (v : V) : JsSet V :=
  if s.has v then s else ⟨s.elems ++ [v]⟩

end JsSet

namespace CollectionSet

/-- `CollectionSet.union`: `new CollectionSet<oV | V>(this)` copies the
receiver, then every value of `other.keys()` is added to the copy.  Neither
input is touched. -/
def union [DecidableEq V] (s : JsSet V) (other : JsSet V) : JsSet V :=
  other.elems.foldl JsSet.add ⟨s.elems⟩

end CollectionSet

/-! Lemmas. -/

namespace JsMap

variable [DecidableEq K]

theorem has_of_superGet_eq_some (m : JsMap K V) (k : K) (w : V)
    (h : m.superGet k = some w) : m.has k = true := by
  unfold superGet at h
  unfold has
  rcases hf : m.find? k with _ | u
  · rw [hf] at h; simp at h
  · rfl

/-! Basic lookup lemmas for the native operations. -/

theorem find?_update_of_isSome (l : List (K × Option V)) (k : K) (v : Option V)
    (h : (l.find? fun e => e.1 == k).isSome = true) :
    ((l.map fun e => if e.1 = k then (k, v) else e).find? fun e => e.1 == k)
      = some (k, v) := by
  induction l with
  | nil => simp at h
  | cons a t ih =>
    by_cases ha : a.1 = k
    · simp [ha]
    · rw [List.map_cons, if_neg ha,
        List.find?_cons_of_neg _ (by simp [ha])]
      apply ih
      rwa [List.find?_cons_of_neg _ (by simp [ha])] at h

theorem find?_update_ne (l : List (K × Option V)) (k k' : K) (v : Option V)
    (h : k' ≠ k) :
    ((l.map fun e => if e.1 = k then (k, v) else e).find? fun e => e.1 == k')
      = l.find? fun e => e.1 == k' := by
  induction l with
  | nil => simp
  | cons a t ih =>
    by_cases ha : a.1 = k
    · rw [List.map_cons, if_pos ha,
        List.find?_cons_of_neg _ (by simp [Ne.symm h]),
        List.find?_cons_of_neg _ (by simp [ha, Ne.symm h])]
      exact ih
    · rw [List.map_cons, if_neg ha]
      by_cases ha' : a.1 = k'
      · rw [List.find?_cons_of_pos _ (by simp [ha']),
          List.find?_cons_of_pos _ (by simp [ha'])]
      · rw [List.find?_cons_of_neg _ (by simp [ha']),
          List.find?_cons_of_neg _ (by simp [ha'])]
        exact ih

theorem find?_filterOut_ne (l : List (K × Option V)) (k k' : K) (h : k' ≠ k) :
    ((l.filter fun e => !(e.1 == k)).find? fun e => e.1 == k')
      = l.find? fun e => e.1 == k' := by
  induction l with
  | nil => simp
  | cons a t ih =>
    by_cases ha : a.1 = k
    · rw [List.filter_cons_of_neg (by simp [ha]),
        List.find?_cons_of_neg _ (by simp [ha, Ne.symm h])]
      exact ih
    · rw [List.filter_cons_of_pos (by simp [ha])]
      by_cases ha' : a.1 = k'
      · rw [List.find?_cons_of_pos _ (by simp [ha']),
          List.find?_cons_of_pos _ (by simp [ha'])]
      · rw [List.find?_cons_of_neg _ (by simp [ha']),
          List.find?_cons_of_neg _ (by simp [ha'])]
        exact ih

theorem entriesFind?_eq_none_of_has_eq_false (m : JsMap K V) (k : K)
    (h : m.has k = false) :
    (m.entries.find? fun e => e.1 == k) = none := by
  unfold has find? at h
  rcases hf : m.entries.find? fun e => e.1 == k with _ | a
  · exact hf
  · rw [hf] at h; simp at h

@[simp] theorem find?_superSet_self (m : JsMap K V) (k : K) (v : Option V) :
    (m.superSet k v).find? k = some v := by
  unfold superSet
  by_cases h : m.has k
  · rw [if_pos h]
    unfold find?
    have h2 : (m.entries.find? fun e => e.1 == k).isSome = true := by
      unfold has find? at h
      simpa using h
    rw [find?_update_of_isSome _ _ _ h2]
    rfl
  · rw [if_neg h]
    unfold find?
    rw [List.find?_append,
      entriesFind?_eq_none_of_has_eq_false m k (by simpa using h)]
    simp

@[simp] theorem find?_superSet_ne (m : JsMap K V) (k k' : K) (v : Option V)
    (h : k' ≠ k) : (m.superSet k v).find? k' = m.find? k' := by
  unfold superSet
  by_cases hh : m.has k
  · rw [if_pos hh]
    unfold find?
    rw [find?_update_ne _ _ _ _ h]
  · rw [if_neg hh]
    unfold find?
    rw [List.find?_append]
    simp [Ne.symm h]

@[simp] theorem find?_superDelete_self (m : JsMap K V) (k : K) :
    (m.superDelete k).2.find? k = none := by
  unfold superDelete find?
  have hn :
      ((m.entries.filter fun e => !(e.1 == k)).find? fun e => e.1 == k)
        = none := by
    rw [List.find?_eq_none]
    intro x hx
    rw [List.mem_filter] at hx
    simpa using hx.2
  rw [hn]
  rfl

@[simp] theorem find?_superDelete_ne (m : JsMap K V) (k k' : K) (h : k' ≠ k) :
    (m.superDelete k).2.find? k' = m.find? k' := by
  unfold superDelete find?
  rw [find?_filterOut_ne _ _ _ h]

@[simp] theorem fst_superDelete (m : JsMap K V) (k : K) :
    (m.superDelete k).1 = m.has k := rfl

@[simp] theorem has_superSet_self (m : JsMap K V) (k : K) (v : Option V) :
    (m.superSet k v).has k = true := by
  unfold has; simp

@[simp] theorem superGet_superSet_self (m : JsMap K V) (k : K) (v : Option V) :
    (m.superSet k v).superGet k = v := by
  unfold superGet; simp

@[simp] theorem has_superDelete_self (m : JsMap K V) (k : K) :
    (m.superDelete k).2.has k = false := by
  unfold has; simp

theorem entriesFind?_of_has (m : JsMap K V) (k : K) (h : m.has k = true) :
    (m.entries.find? fun e => e.1 == k) = some (k, m.superGet k) := by
  rcases hf : m.entries.find? fun e => e.1 == k with _ | e
  · exfalso
    unfold has find? at h
    rw [hf] at h
    simp at h
  · have h1 := List.find?_some hf
    have h2 : e.1 = k := by simpa using h1
    have h3 : m.superGet k = e.2 := by
      unfold superGet find?
      rw [hf]
      rfl
    rw [h3, ← h2]
    rw [← h2] at hf
    exact hf

theorem superGet_eq_none_of_has_eq_false (m : JsMap K V) (k : K)
    (h : m.has k = false) : m.superGet k = none := by
  unfold has at h
  unfold superGet
  rcases hf : m.find? k with _ | w
  · rfl
  · rw [hf] at h; simp at h

end JsMap

/-! Lemmas about keyed lists with pairwise distinct keys, used for the
entry-wise operations `replaceAll` and `setAll`. -/

section Keyed

variable {α β : Type} [DecidableEq K]

theorem find?_eq_some_of_mem (l : List (K × α)) (k : K) (w : α)
    (hnd : (l.map Prod.fst).Nodup) (hmem : (k, w) ∈ l) :
    (l.find? fun e => e.1 == k) = some (k, w) := by
  induction l with
  | nil => simp at hmem
  | cons a t ih =>
    rw [List.map_cons, List.nodup_cons] at hnd
    rcases List.mem_cons.mp hmem with h | h
    · rw [← h]
      exact List.find?_cons_of_pos _ (by simp)
    · by_cases ha : a.1 = k
      · exact absurd (ha ▸ List.mem_map_of_mem Prod.fst h) hnd.1
      · rw [List.find?_cons_of_neg _ (by simp [ha])]
        exact ih hnd.2 h

theorem filter_key_of_nodup (l : List (K × α)) (k : K)
    (hnd : (l.map Prod.fst).Nodup) :
    l.filter (fun e => e.1 == k) = (l.find? fun e => e.1 == k).toList := by
  induction l with
  | nil => simp
  | cons a t ih =>
    rw [List.map_cons, List.nodup_cons] at hnd
    by_cases ha : a.1 = k
    · rw [List.filter_cons_of_pos (by simp [ha]),
        List.find?_cons_of_pos _ (by simp [ha])]
      have ht : t.filter (fun e => e.1 == k) = [] := by
        rw [List.filter_eq_nil_iff]
        intro e he
        simp only [beq_iff_eq]
        intro hek
        exact hnd.1 (ha ▸ hek ▸ List.mem_map_of_mem Prod.fst he)
      rw [ht]
      rfl
    · rw [List.filter_cons_of_neg (by simp [ha]),
        List.find?_cons_of_neg _ (by simp [ha])]
      exact ih hnd.2

theorem find?_keyed_eq_none (l : List (K × α)) (f : K × α → Option (K × β))
    (k : K) (hf : ∀ e b, f e = some b → b.1 = e.1)
    (hk : k ∉ l.map Prod.fst) :
    ((l.filterMap f).find? fun e => e.1 == k) = none := by
  rw [List.find?_eq_none]
  intro x hx
  rw [List.mem_filterMap] at hx
  obtain ⟨e, he, hfe⟩ := hx
  have hx1 : x.1 = e.1 := hf e x hfe
  simp only [beq_iff_eq, hx1]
  intro hek
  exact hk (hek ▸ List.mem_map_of_mem Prod.fst he)

theorem find?_filter_keyTrue (l : List (K × α)) (q : K × α → Bool) (k : K)
    (hq : ∀ e : K × α, e.1 = k → q e = true) :
    ((l.filter q).find? fun e => e.1 == k) = l.find? fun e => e.1 == k := by
  induction l with
  | nil => simp
  | cons a t ih =>
    by_cases ha : a.1 = k
    · rw [List.filter_cons_of_pos (hq a ha),
        List.find?_cons_of_pos _ (by simp [ha]),
        List.find?_cons_of_pos _ (by simp [ha])]
    · by_cases hqa : q a = true
      · rw [List.filter_cons_of_pos hqa,
          List.find?_cons_of_neg _ (by simp [ha]),
          List.find?_cons_of_neg _ (by simp [ha])]
        exact ih
      · rw [List.filter_cons_of_neg (by simpa using hqa),
          List.find?_cons_of_neg _ (by simp [ha])]
        exact ih

omit [DecidableEq K] in
theorem keyed_fst_of_map_eq_some (g : K × α → Option β) (e : K × α)
    (b : K × Option β) (hb : ((g e).map fun u => (e.1, some u)) = some b) :
    b.1 = e.1 := by
  rcases he : g e with _ | u2
  · rw [he, Option.map_none'] at hb
    exact absurd hb (by simp)
  · rw [he, Option.map_some'] at hb
    rw [← Option.some.inj hb]

theorem find?_filterMapKeyed (l : List (K × α)) (g : K × α → Option β)
    (k : K) (hnd : (l.map Prod.fst).Nodup) :
    ((l.filterMap fun e => (g e).map fun u => (e.1, some u)).find?
        fun e => e.1 == k)
      = (l.find? fun e => e.1 == k).bind fun e =>
          (g e).map fun u => (e.1, some u) := by
  have hfprop : ∀ (e : K × α) (b : K × Option β),
      ((g e).map fun u => (e.1, some u)) = some b → b.1 = e.1 :=
    keyed_fst_of_map_eq_some g
  induction l with
  | nil => simp
  | cons a t ih =>
    rw [List.map_cons, List.nodup_cons] at hnd
    by_cases ha : a.1 = k
    · rw [List.find?_cons_of_pos _ (by simp [ha])]
      rcases hga : g a with _ | u
      · rw [List.filterMap_cons_none (by rw [hga]; rfl),
          find?_keyed_eq_none t (fun e => (g e).map fun u => (e.1, some u)) k
            hfprop (ha ▸ hnd.1),
          Option.some_bind, hga, Option.map_none']
      · rw [List.filterMap_cons_some (by rw [hga]; rfl),
          List.find?_cons_of_pos _ (by simp [ha]),
          Option.some_bind, hga, Option.map_some']
    · rw [List.find?_cons_of_neg _ (by simp [ha])]
      rcases hga : g a with _ | u
      · rw [List.filterMap_cons_none (by rw [hga]; rfl)]
        exact ih hnd.2
      · rw [List.filterMap_cons_some (by rw [hga]; rfl),
          List.find?_cons_of_neg _ (by simp [ha])]
        exact ih hnd.2

theorem filter_key_map (l : List (K × α)) (f : K × α → K × β)
    (hf : ∀ e, (f e).1 = e.1) (k : K) :
    (l.map f).filter (fun c => c.1 == k)
      = (l.filter fun e => e.1 == k).map f := by
  induction l with
  | nil => simp
  | cons a t ih =>
    rw [List.map_cons]
    by_cases ha : a.1 = k
    · rw [List.filter_cons_of_pos (by simp [hf a, ha]),
        List.filter_cons_of_pos (by simp [ha]),
        List.map_cons, ih]
    · rw [List.filter_cons_of_neg (by simp [hf a, ha]),
        List.filter_cons_of_neg (by simp [ha]), ih]

end Keyed

/-! Facts about the key set visited by the second loop of `setAll`. -/

section RestKeys

variable [DecidableEq K] {α : Type}

theorem restFind?_eq_none_of_has (m : JsMap K V) (other : JsMap K W) (k : K)
    (h : m.has k = true) :
    ((other.entries.filter fun e => !(m.has e.1)).find? fun e => e.1 == k)
      = none := by
  rw [List.find?_eq_none]
  intro x hx
  rw [List.mem_filter] at hx
  simp only [beq_iff_eq]
  intro hxk
  have h2 := hx.2
  rw [hxk, h] at h2
  simp at h2

theorem restKeys_not_mem_of_has (m : JsMap K V) (other : JsMap K W) (k : K)
    (h : m.has k = true) :
    k ∉ (other.entries.filter fun e => !(m.has e.1)).map Prod.fst := by
  intro hk
  rw [List.mem_map] at hk
  obtain ⟨e, he, hek⟩ := hk
  rw [List.mem_filter] at he
  have h2 := he.2
  rw [hek, h] at h2
  simp at h2

theorem restFind?_eq_of_not_has (m : JsMap K V) (other : JsMap K W) (k : K)
    (h : m.has k = false) :
    ((other.entries.filter fun e => !(m.has e.1)).find? fun e => e.1 == k)
      = other.entries.find? fun e => e.1 == k :=
  find?_filter_keyTrue other.entries (fun e => !(m.has e.1)) k
    (fun e he => by simp [he, h])

end RestKeys

namespace CollectionMap

variable [DecidableEq K]

theorem get_none_eq_superGet (m : JsMap K V) (k : K) :
    get m k none = m.superGet k := by
  unfold get
  by_cases h : m.has k
  · rw [if_pos h]
  · rw [if_neg h,
      JsMap.superGet_eq_none_of_has_eq_false m k (by simpa using h)]

end CollectionMap

namespace JsSet

variable [DecidableEq V]

theorem has_add (s : JsSet V) (w v : V) :
    (s.add w).has v = (s.has v || v == w) := by
  unfold add
  by_cases hw : s.has w
  · rw [if_pos hw]
    by_cases hv : v = w
    · subst hv
      simp [hw]
    · have hb : (v == w) = false := by simp [hv]
      rw [hb, Bool.or_false]
  · rw [if_neg hw]
    unfold has
    rw [List.contains_eq_any_beq, List.contains_eq_any_beq, List.any_append]
    simp

theorem has_foldl_add (l : List V) (acc : JsSet V) (v : V) :
    (l.foldl add acc).has v = (acc.has v || l.contains v) := by
  induction l generalizing acc with
  | nil => simp
  | cons w t ih =>
    rw [List.foldl_cons, ih, has_add, List.contains_cons]
    simp [Bool.or_assoc]

theorem add_nodup (s : JsSet V) (w : V) (h : s.elems.Nodup) :
    (s.add w).elems.Nodup := by
  unfold add
  by_cases hw : s.has w
  · rw [if_pos hw]
    exact h
  · rw [if_neg hw]
    have hwmem : w ∉ s.elems := by
      intro hmem
      apply hw
      unfold has
      rw [List.contains_eq_any_beq, List.any_eq_true]
      exact ⟨w, hmem, by simp⟩
    refine h.append (List.nodup_singleton w) ?_
    intro a ha hb
    have hab : a = w := by simpa using hb
    subst hab
    exact hwmem ha

theorem foldl_add_nodup (l : List V) (acc : JsSet V)
    (h : acc.elems.Nodup) : (l.foldl add acc).elems.Nodup := by
  induction l generalizing acc with
  | nil => exact h
  | cons w t ih =>
    rw [List.foldl_cons]
    exact ih _ (add_nodup acc w h)

end JsSet

/-! Claim theorems. -/

open CollectionMap

/-- C2: `compute` invokes the mapping function exactly once, with the key
and the current value of the key (the absence indicator when no entry
exists); a real result is stored for the key and returned, an absent result
removes the entry (a no-op when already absent) and is returned; in
particular, on a key with no entry a real result `v` makes a following `get`
yield `v`. -/
theorem compute_spec [DecidableEq K] [DecidableEq V] (m : JsMap K V) (key : K)
    (fn : K → Option V → Option V) :
    (compute m key fn).2.2 = [(key, CollectionMap.get m key none)] ∧
    (compute m key fn).1 = fn key (CollectionMap.get m key none) ∧
    (∀ v, fn key (CollectionMap.get m key none) = some v →
      (compute m key fn).2.1.find? key = some (some v)) ∧
    (fn key (CollectionMap.get m key none) = none →
      (compute m key fn).2.1.has key = false) ∧
    (m.has key = false → ∀ v, fn key none = some v →
      CollectionMap.get (compute m key fn).2.1 key none = some v) := by
  refine ⟨?_, ?_, ?_, ?_, ?_⟩
  · rcases hfn : fn key (CollectionMap.get m key none) with _ | v <;> simp [compute, hfn]
  · rcases hfn : fn key (CollectionMap.get m key none) with _ | v <;> simp [compute, hfn]
  · intro v hv
    simp [compute, hv]
  · intro hv
    simp [compute, hv, delete]
  · intro hhas v hv
    have h0 : CollectionMap.get m key none = none := by
      unfold CollectionMap.get
      rw [if_neg (by simp [hhas])]
    have h1 : fn key (CollectionMap.get m key none) = some v := by
      rw [h0]; exact hv
    have h2 : (compute m key fn).2.1 = m.superSet key (some v) := by
      simp [compute, h1]
    rw [h2]
    unfold CollectionMap.get
    simp

/-- Witness for C2 at concrete inputs. -/
theorem compute_spec_witness :
    CollectionMap.get (compute (⟨[]⟩ : JsMap Nat Nat) 0 (fun _ _ => some 7)).2.1 0 none
        = some 7 ∧
    (compute (⟨[(0, some 5)]⟩ : JsMap Nat Nat) 0 (fun _ _ => none)).2.1.has 0
        = false :=
  ⟨(compute_spec (⟨[]⟩ : JsMap Nat Nat) 0 (fun _ _ => some 7)).2.2.2.2
      rfl 7 rfl,
   (compute_spec (⟨[(0, some 5)]⟩ : JsMap Nat Nat) 0
      (fun _ _ => none)).2.2.2.1 rfl⟩

/-- C1: the compute-family operations never leave an entry holding the
absence indicator: whenever the caller-supplied transformation invoked by
`compute`, `computeIfAbsent`, `computeIfPresent`, `computeIf`, `merge` or
`replaceAll` returns the absence indicator for a key, the resulting map has
no native entry for that key, whether or not one existed before. -/
theorem absence_indicator_never_stored [DecidableEq K] [DecidableEq V]
    (m : JsMap K V) (key : K) (fn : K → Option V → Option V)
    (fa : K → Option V) (pres : K → Option V → Option V)
    (mfn : V → V → Option V) (dflt : V) :
    (fn key (CollectionMap.get m key none) = none →
      (compute m key fn).2.1.has key = false) ∧
    (m.has key = false → fa key = none →
      (computeIfAbsent m key fa).2.1.has key = false) ∧
    (m.has key = true → fn key (m.superGet key) = none →
      (computeIfPresent m key fn).2.1.has key = false) ∧
    ((computeIf m key pres fa).1 = none →
      (computeIf m key pres fa).2.1.has key = false) ∧
    ((merge m key dflt mfn).1 = none →
      (merge m key dflt mfn).2.1.has key = false) ∧
    (m.WF → ∀ w, (key, w) ∈ m.entries → fn key w = none →
      (replaceAll m fn).has key = false) := by
  refine ⟨?_, ?_, ?_, ?_, ?_, ?_⟩
  · intro h
    simp [compute, h, delete]
  · intro hh h
    simp [computeIfAbsent, hh, h]
  · intro hh h
    simp [computeIfPresent, hh, h]
  · intro hret
    by_cases hh : m.has key
    · rcases hp : pres key (CollectionMap.get m key none) with _ | v
      · simp [computeIf, hh, hp]
      · have h1 : (computeIf m key pres fa).1 = some v := by
          simp [computeIf, hh, hp]
        rw [hret] at h1
        simp at h1
    · rcases ha : fa key with _ | v
      · simp [computeIf, hh, ha]
      · have h1 : (computeIf m key pres fa).1 = some v := by
          simp [computeIf, hh, ha]
        rw [hret] at h1
        simp at h1
  · intro hret
    rcases h0 : m.superGet key with _ | prev
    · have h1 : (merge m key dflt mfn).1 = some dflt := by simp [merge, h0]
      rw [hret] at h1
      simp at h1
    · rcases hf : mfn prev dflt with _ | v
      · simp [merge, h0, hf]
      · have h1 : (merge m key dflt mfn).1 = some v := by
          simp [merge, h0, hf]
        rw [hret] at h1
        simp at h1
  · intro hwf w hmem hfn
    have hnd : (m.entries.map Prod.fst).Nodup := hwf
    have hfind : (m.entries.find? fun e => e.1 == key) = some (key, w) :=
      find?_eq_some_of_mem m.entries key w hnd hmem
    unfold JsMap.has JsMap.find? replaceAll
    rw [find?_filterMapKeyed m.entries (fun e => fn e.1 e.2) key hnd, hfind]
    simp [hfn]

/-- Witness for C1 at concrete inputs, one per operation. -/
theorem absence_indicator_never_stored_witness :
    (compute (⟨[(1, some 2)]⟩ : JsMap Nat Nat) 1
        (fun _ _ => none)).2.1.has 1 = false ∧
    (computeIfAbsent (⟨[]⟩ : JsMap Nat Nat) 1
        (fun _ => none)).2.1.has 1 = false ∧
    (computeIfPresent (⟨[(1, some 2)]⟩ : JsMap Nat Nat) 1
        (fun _ _ => none)).2.1.has 1 = false ∧
    (computeIf (⟨[(1, some 2)]⟩ : JsMap Nat Nat) 1
        (fun _ _ => none) (fun _ => none)).2.1.has 1 = false ∧
    (merge (⟨[(1, some 2)]⟩ : JsMap Nat Nat) 1 3
        (fun _ _ => none)).2.1.has 1 = false ∧
    (replaceAll (⟨[(1, some 2)]⟩ : JsMap Nat Nat)
        (fun _ _ => none)).has 1 = false :=
  ⟨(absence_indicator_never_stored (⟨[(1, some 2)]⟩ : JsMap Nat Nat) 1
      (fun _ _ => none) (fun _ => none) (fun _ _ => none)
      (fun _ _ => none) 3).1 rfl,
   (absence_indicator_never_stored (⟨[]⟩ : JsMap Nat Nat) 1
      (fun _ _ => none) (fun _ => none) (fun _ _ => none)
      (fun _ _ => none) 3).2.1 rfl rfl,
   (absence_indicator_never_stored (⟨[(1, some 2)]⟩ : JsMap Nat Nat) 1
      (fun _ _ => none) (fun _ => none) (fun _ _ => none)
      (fun _ _ => none) 3).2.2.1 rfl rfl,
   (absence_indicator_never_stored (⟨[(1, some 2)]⟩ : JsMap Nat Nat) 1
      (fun _ _ => none) (fun _ => none) (fun _ _ => none)
      (fun _ _ => none) 3).2.2.2.1 rfl,
   (absence_indicator_never_stored (⟨[(1, some 2)]⟩ : JsMap Nat Nat) 1
      (fun _ _ => none) (fun _ => none) (fun _ _ => none)
      (fun _ _ => none) 3).2.2.2.2.1 rfl,
   (absence_indicator_never_stored (⟨[(1, some 2)]⟩ : JsMap Nat Nat) 1
      (fun _ _ => none) (fun _ => none) (fun _ _ => none)
      (fun _ _ => none) 3).2.2.2.2.2 (by decide) (some 2) (by decide) rfl⟩

/-- C3: `computeIf` branches on the native existence check, not on the
stored value: when the key has a native entry — even one whose stored value
is the absence indicator — only the `present` function is invoked, with the
key and the current value, and the result is stored or removed exactly as
`compute` does; when the key has no native entry only the `absent` function
is invoked. -/
theorem computeIf_native_existence [DecidableEq K] [DecidableEq V]
    (m : JsMap K V) (key : K)
    (pres : K → Option V → Option V) (abs : K → Option V) :
    (m.find? key = some none →
      (computeIf m key pres abs).2.2.1 = [(key, none)] ∧
      (computeIf m key pres abs).2.2.2 = [] ∧
      (computeIf m key pres abs).1 = pres key none ∧
      (∀ v, pres key none = some v →
        (computeIf m key pres abs).2.1.find? key = some (some v)) ∧
      (pres key none = none →
        (computeIf m key pres abs).2.1.has key = false)) ∧
    (m.has key = false →
      (computeIf m key pres abs).2.2.1 = [] ∧
      (computeIf m key pres abs).2.2.2 = [key]) := by
  refine ⟨?_, ?_⟩
  · intro h
    have hhas : m.has key = true := by
      unfold JsMap.has
      rw [h]
      rfl
    have hget : CollectionMap.get m key none = none := by
      rw [get_none_eq_superGet]
      unfold JsMap.superGet
      rw [h]
      rfl
    refine ⟨?_, ?_, ?_, ?_, ?_⟩
    · rcases hp : pres key none with _ | v <;>
        simp [computeIf, hhas, hget, hp]
    · rcases hp : pres key none with _ | v <;>
        simp [computeIf, hhas, hget, hp]
    · rcases hp : pres key none with _ | v <;>
        simp [computeIf, hhas, hget, hp]
    · intro v hv
      simp [computeIf, hhas, hget, hv]
    · intro hv
      simp [computeIf, hhas, hget, hv]
  · intro h
    refine ⟨?_, ?_⟩ <;> rcases ha : abs key with _ | v <;>
      simp [computeIf, h, ha]

/-- Witness for C3: a map whose entry for the key stores the absence
indicator, mirroring the example of the claim. -/
theorem computeIf_native_existence_witness :
    (computeIf (⟨[("Key-1", none)]⟩ : JsMap String Nat) "Key-1"
        (fun _ v => match v with | none => some 10 | some x => some (x + 1))
        (fun _ => some 99)).2.2.1 = [("Key-1", none)] ∧
    (computeIf (⟨[("Key-1", none)]⟩ : JsMap String Nat) "Key-1"
        (fun _ v => match v with | none => some 10 | some x => some (x + 1))
        (fun _ => some 99)).2.2.2 = [] ∧
    (computeIf (⟨[("Key-1", none)]⟩ : JsMap String Nat) "Key-1"
        (fun _ v => match v with | none => some 10 | some x => some (x + 1))
        (fun _ => some 99)).2.1.find? "Key-1" = some (some 10) :=
  ⟨((computeIf_native_existence (⟨[("Key-1", none)]⟩ : JsMap String Nat)
      "Key-1" (fun _ v => match v with
        | none => some 10 | some x => some (x + 1))
      (fun _ => some 99)).1 rfl).1,
   ((computeIf_native_existence (⟨[("Key-1", none)]⟩ : JsMap String Nat)
      "Key-1" (fun _ v => match v with
        | none => some 10 | some x => some (x + 1))
      (fun _ => some 99)).1 rfl).2.1,
   ((computeIf_native_existence (⟨[("Key-1", none)]⟩ : JsMap String Nat)
      "Key-1" (fun _ v => match v with
        | none => some 10 | some x => some (x + 1))
      (fun _ => some 99)).1 rfl).2.2.2.1 10 rfl⟩

/-- C4: `merge` stores the default and skips the mapping function when the
current native get yields the absence indicator (missing entry or stored
absence indicator); otherwise it invokes the mapping function exactly once
with the current value and the default, storing or removing per its result
and returning it; a second merge on an initially fresh key invokes the
function with the previously stored default and the new default. -/
theorem merge_spec [DecidableEq K] (m : JsMap K V) (key : K) (dflt : V)
    (fn : V → V → Option V) :
    (m.superGet key = none →
      (merge m key dflt fn).1 = some dflt ∧
      (merge m key dflt fn).2.1.find? key = some (some dflt) ∧
      (merge m key dflt fn).2.2 = []) ∧
    (∀ prev, m.superGet key = some prev →
      (merge m key dflt fn).2.2 = [(prev, dflt)] ∧
      (merge m key dflt fn).1 = fn prev dflt ∧
      (∀ v, fn prev dflt = some v →
        (merge m key dflt fn).2.1.find? key = some (some v)) ∧
      (fn prev dflt = none →
        (merge m key dflt fn).2.1.has key = false)) ∧
    (m.has key = false → ∀ (dflt2 : V) (fn2 : V → V → Option V),
      (merge (merge m key dflt fn).2.1 key dflt2 fn2).2.2
        = [(dflt, dflt2)]) := by
  refine ⟨?_, ?_, ?_⟩
  · intro h
    simp [merge, h]
  · intro prev h
    refine ⟨?_, ?_, ?_, ?_⟩
    · rcases hf : fn prev dflt with _ | v <;> simp [merge, h, hf]
    · rcases hf : fn prev dflt with _ | v <;> simp [merge, h, hf]
    · intro v hv
      simp [merge, h, hv]
    · intro hv
      simp [merge, h, hv]
  · intro hh dflt2 fn2
    have h0 : m.superGet key = none :=
      JsMap.superGet_eq_none_of_has_eq_false m key hh
    have h1 : (merge m key dflt fn).2.1 = m.superSet key (some dflt) := by
      simp [merge, h0]
    rw [h1]
    have h2 : (m.superSet key (some dflt)).superGet key = some dflt := by simp
    rcases hf : fn2 dflt dflt2 with _ | v <;> simp [merge, h2, hf]

/-- Witness for C4 at concrete inputs, mirroring the two-merge example. -/
theorem merge_spec_witness :
    (merge (⟨[]⟩ : JsMap Nat Nat) 0 5 (fun a b => some (a + b))).1
        = some 5 ∧
    (merge (⟨[(0, some 2)]⟩ : JsMap Nat Nat) 0 5
        (fun a b => some (a + b))).2.2 = [(2, 5)] ∧
    (merge (merge (⟨[]⟩ : JsMap Nat Nat) 0 5
        (fun a b => some (a + b))).2.1 0 7
        (fun a b => some (a + b))).2.2 = [(5, 7)] :=
  ⟨((merge_spec (⟨[]⟩ : JsMap Nat Nat) 0 5 (fun a b => some (a + b))).1
      rfl).1,
   ((merge_spec (⟨[(0, some 2)]⟩ : JsMap Nat Nat) 0 5
      (fun a b => some (a + b))).2.1 2 rfl).1,
   (merge_spec (⟨[]⟩ : JsMap Nat Nat) 0 5 (fun a b => some (a + b))).2.2
      rfl 7 (fun a b => some (a + b))⟩

/-- C8: `computeIfAbsent` never invokes its function when the key already
has a native entry — the result does not depend on the function at all, the
map is unchanged and the current stored value is returned; on a key with no
entry the function is invoked, a real result is stored and returned, and an
absent result stores nothing and is returned. -/
theorem computeIfAbsent_spec [DecidableEq K] (m : JsMap K V) (key : K)
    (fn : K → Option V) :
    (m.has key = true →
      computeIfAbsent m key fn = (m.superGet key, m, [])) ∧
    (m.has key = false →
      (computeIfAbsent m key fn).2.2 = [key] ∧
      (∀ v, fn key = some v →
        (computeIfAbsent m key fn).1 = some v ∧
        (computeIfAbsent m key fn).2.1.find? key = some (some v)) ∧
      (fn key = none → computeIfAbsent m key fn = (none, m, [key]))) := by
  refine ⟨?_, ?_⟩
  · intro h
    simp [computeIfAbsent, h]
  · intro h
    refine ⟨?_, ?_, ?_⟩
    · rcases hf : fn key with _ | v <;> simp [computeIfAbsent, h, hf]
    · intro v hv
      simp [computeIfAbsent, h, hv]
    · intro hv
      simp [computeIfAbsent, h, hv]

/-- Witness for C8 at concrete inputs: a present key ignores the function, a
fresh key stores its result. -/
theorem computeIfAbsent_spec_witness :
    computeIfAbsent (⟨[(0, some 1)]⟩ : JsMap Nat Nat) 0 (fun _ => some 99)
        = ((⟨[(0, some 1)]⟩ : JsMap Nat Nat).superGet 0,
            (⟨[(0, some 1)]⟩ : JsMap Nat Nat), []) ∧
    (computeIfAbsent (⟨[]⟩ : JsMap Nat Nat) 0
        (fun _ => some 7)).2.1.find? 0 = some (some 7) :=
  ⟨(computeIfAbsent_spec (⟨[(0, some 1)]⟩ : JsMap Nat Nat) 0
      (fun _ => some 99)).1 rfl,
   (((computeIfAbsent_spec (⟨[]⟩ : JsMap Nat Nat) 0
      (fun _ => some 7)).2 rfl).2.1 7 rfl).2⟩

/-- C10: `setIfAbsent` and `replace` store the supplied value verbatim with
no absence-indicator check: on a key with no native entry, `setIfAbsent`
with the absence indicator creates a native entry holding it and returns it;
on a key with a native entry, `replace` with the absence indicator leaves a
native entry holding it rather than removing the entry. -/
theorem sentinel_value_storable [DecidableEq K] [DecidableEq V]
    (m : JsMap K V) (key : K) :
    (m.has key = false →
      (setIfAbsent m key none).1 = none ∧
      (setIfAbsent m key none).2.has key = true ∧
      (setIfAbsent m key none).2.find? key = some none) ∧
    (m.has key = true →
      (replaceCall m key none none).1 = none ∧
      (replaceCall m key none none).2.has key = true ∧
      (replaceCall m key none none).2.find? key = some none) := by
  refine ⟨?_, ?_⟩
  · intro h
    refine ⟨?_, ?_, ?_⟩ <;> simp [setIfAbsent, h]
  · intro h
    have h1 : replaceCall m key none none = (none, m.superSet key none) := by
      simp [replaceCall, replace, h]
    refine ⟨?_, ?_, ?_⟩ <;> rw [h1] <;> simp

/-- C5 counterexample: on the map `{"key" ↦ 25}`, calling `delete` with the
absence indicator passed explicitly as the expected value deletes the entry
and returns `true` — the JS default parameter replaces the explicit
`undefined` by the no-check sentinel — whereas the claim predicts `false`
with the entry left unchanged, since `Object.is(25, undefined)` is false. -/
theorem delete_absent_expected_deletes_unconditionally :
    (deleteCall (⟨[("key", some 25)]⟩ : JsMap String Nat) "key"
        (some none)).1 = true ∧
    (deleteCall (⟨[("key", some 25)]⟩ : JsMap String Nat) "key"
        (some none)).2.has "key" = false := by
  refine ⟨rfl, ?_⟩
  decide

/-- C5 amended: `delete` with the second argument omitted — and likewise
with the absence indicator passed explicitly, which JS default parameters
collapse into the no-check sentinel — removes unconditionally and returns
whether an entry existed; with a real (non-absent) expected value it removes
the entry and returns `true` exactly when the stored value is
same-value-equal to it, and otherwise returns `false` leaving the map
unchanged. -/
theorem delete_spec [DecidableEq K] [DecidableEq V] (m : JsMap K V)
    (key : K) :
    ((deleteCall m key none).1 = m.has key ∧
      (deleteCall m key none).2.has key = false) ∧
    deleteCall m key (some none) = deleteCall m key none ∧
    (∀ w, m.superGet key = some w →
      (deleteCall m key (some (some w))).1 = true ∧
      (deleteCall m key (some (some w))).2.has key = false) ∧
    (∀ w, m.superGet key ≠ some w →
      (deleteCall m key (some (some w))).1 = false ∧
      (deleteCall m key (some (some w))).2 = m) := by
  refine ⟨⟨rfl, ?_⟩, rfl, ?_, ?_⟩
  · simp [deleteCall, delete]
  · intro w h
    have hh : m.has key = true := JsMap.has_of_superGet_eq_some m key w h
    refine ⟨?_, ?_⟩ <;> simp [deleteCall, delete, h, hh]
  · intro w h
    refine ⟨?_, ?_⟩ <;> simp [deleteCall, delete, h]

/-- Witness for C5 (amended) at concrete inputs, mirroring the example of
the claim: on `{"key" ↦ 25}`, deleting with expected value 10 fails and
leaves the map unchanged, deleting with expected value 25 succeeds. -/
theorem delete_spec_witness :
    ((deleteCall (⟨[("key", some 25)]⟩ : JsMap String Nat) "key"
        (some (some 10))).1 = false ∧
      (deleteCall (⟨[("key", some 25)]⟩ : JsMap String Nat) "key"
        (some (some 10))).2 = ⟨[("key", some 25)]⟩) ∧
    (deleteCall (⟨[("key", some 25)]⟩ : JsMap String Nat) "key"
        (some (some 25))).1 = true :=
  ⟨(delete_spec (⟨[("key", some 25)]⟩ : JsMap String Nat) "key").2.2.2 10
      (by decide),
   ((delete_spec (⟨[("key", some 25)]⟩ : JsMap String Nat) "key").2.2.1 25
      (by decide)).1⟩

/-- C6 counterexample: on the map `{"key" ↦ 5}`, calling `replace` with new
value 100 and the absence indicator passed explicitly as the expected old
value stores 100 and returns it — the JS default parameter replaces the
explicit `undefined` by the no-check sentinel, making the replace
unconditional — whereas the claim predicts no store and the current value 5
returned, since the stored value 5 is not same-value-equal to the absence
indicator. -/
theorem replace_absent_expected_applies_unconditionally :
    (replaceCall (⟨[("key", some 5)]⟩ : JsMap String Nat) "key" (some 100)
        (some none)).1 = some 100 ∧
    (replaceCall (⟨[("key", some 5)]⟩ : JsMap String Nat) "key" (some 100)
        (some none)).2.find? "key" = some (some 100) := by
  refine ⟨rfl, ?_⟩
  decide

/-- C6 amended: `replace` stores the new value and returns it exactly when
the key has a native entry and the expected-old-value argument is omitted,
or is the absence indicator (which JS default parameters collapse into the
no-check sentinel), or is same-value-equal to the current stored value;
otherwise the map is unchanged and the current stored value is returned
(the absence indicator when the key has no entry). -/
theorem replace_spec [DecidableEq K] [DecidableEq V] (m : JsMap K V)
    (key : K) (value : Option V) (previous : Option (Option V)) :
    (m.has key = true →
      (previous.join = none ∨ m.superGet key = previous.join) →
      replaceCall m key value previous = (value, m.superSet key value)) ∧
    (m.has key = false →
      replaceCall m key value previous = (m.superGet key, m)) ∧
    (∀ w, previous.join = some w → m.superGet key ≠ some w →
      replaceCall m key value previous = (m.superGet key, m)) := by
  refine ⟨?_, ?_, ?_⟩
  · intro hh hp
    rcases hj : previous.join with _ | w
    · unfold replaceCall replace
      rw [hj]
      simp [hh]
    · rw [hj] at hp
      rcases hp with hp | hp
      · exact absurd hp (by simp)
      · unfold replaceCall replace
        rw [hj, hp]
        simp [hh]
  · intro hh
    unfold replaceCall replace
    simp [hh]
  · intro w hp hne
    unfold replaceCall replace
    rw [hp]
    have hb : (m.superGet key == some w) = false := by
      rw [beq_eq_false_iff_ne]
      exact hne
    simp [hb]

/-- Witness for C6 (amended) at concrete inputs, mirroring the examples of
the claim: a missing key is a no-op returning the absence indicator, a
matching expected old value applies the replacement, and an expected old
value equal to the absence indicator applies when the stored value is
literally the absence indicator (both collapse to the unconditional form). -/
theorem replace_spec_witness :
    replaceCall (⟨[]⟩ : JsMap String Nat) "Key" (some 12) none
        = ((⟨[]⟩ : JsMap String Nat).superGet "Key",
            (⟨[]⟩ : JsMap String Nat)) ∧
    replaceCall (⟨[("Key", some 5)]⟩ : JsMap String Nat) "Key" (some 10)
        (some (some 5))
        = (some 10,
            (⟨[("Key", some 5)]⟩ : JsMap String Nat).superSet "Key"
              (some 10)) ∧
    replaceCall (⟨[("Key", none)]⟩ : JsMap String Nat) "Key" (some 1)
        (some none)
        = (some 1,
            (⟨[("Key", none)]⟩ : JsMap String Nat).superSet "Key"
              (some 1)) ∧
    replaceCall (⟨[("Key", some 1)]⟩ : JsMap String Nat) "Key" (some 100)
        (some (some 10))
        = ((⟨[("Key", some 1)]⟩ : JsMap String Nat).superGet "Key",
            (⟨[("Key", some 1)]⟩ : JsMap String Nat)) :=
  ⟨(replace_spec (⟨[]⟩ : JsMap String Nat) "Key" (some 12) none).2.1 rfl,
   (replace_spec (⟨[("Key", some 5)]⟩ : JsMap String Nat) "Key" (some 10)
      (some (some 5))).1 rfl (Or.inr (by decide)),
   (replace_spec (⟨[("Key", none)]⟩ : JsMap String Nat) "Key" (some 1)
      (some none)).1 rfl (Or.inl rfl),
   (replace_spec (⟨[("Key", some 1)]⟩ : JsMap String Nat) "Key" (some 100)
      (some (some 10))).2.2 10 rfl (by decide)⟩

/-- Witness for C10 at concrete inputs. -/
theorem sentinel_value_storable_witness :
    (setIfAbsent (⟨[]⟩ : JsMap Nat Nat) 0 none).2.find? 0 = some none ∧
    (replaceCall (⟨[(0, some 3)]⟩ : JsMap Nat Nat) 0 none
        none).2.find? 0 = some none :=
  ⟨((sentinel_value_storable (⟨[]⟩ : JsMap Nat Nat) 0).1 rfl).2.2,
   ((sentinel_value_storable (⟨[(0, some 3)]⟩ : JsMap Nat Nat) 0).2
      rfl).2.2⟩

/-- C7: `setAll` builds a new mapping — the embedding takes both input maps
by value, so neither is mutated — and for every key present in either input
the merge function is invoked exactly once, with this mapping's value for
the key (the absence indicator when missing) and the other mapping's value
for the key (likewise); the result is stored under the key in the new
mapping unless it is the absence indicator, in which case the key is
omitted.  Keys in neither input are never processed. -/
theorem setAll_spec [DecidableEq K] (m : JsMap K V) (other : JsMap K W)
    (fn : Option V → Option W → Option U) (hm : m.WF) (ho : other.WF) :
    (∀ k, (setAll m other fn).2.filter (fun c => c.1 == k)
        = if m.has k || other.has k
          then [(k, m.superGet k, other.superGet k)] else []) ∧
    (∀ k, (setAll m other fn).1.find? k
        = if m.has k || other.has k
          then (fn (m.superGet k) (other.superGet k)).map some
          else none) := by
  have hmnd : (m.entries.map Prod.fst).Nodup := hm
  have hrestnd :
      (((other.entries.filter fun e => !(m.has e.1)).map Prod.fst)).Nodup :=
    List.Nodup.sublist ((List.filter_sublist other.entries).map Prod.fst) ho
  constructor
  · intro k
    simp only [setAll]
    rw [List.filter_append,
      filter_key_map m.entries (fun e => (e.1, e.2, other.superGet e.1))
        (fun e => rfl) k,
      filter_key_map (other.entries.filter fun e => !(m.has e.1))
        (fun e => (e.1, m.superGet e.1, e.2)) (fun e => rfl) k,
      filter_key_of_nodup m.entries k hmnd,
      filter_key_of_nodup (other.entries.filter fun e => !(m.has e.1)) k
        hrestnd]
    by_cases hmk : m.has k
    · rw [m.entriesFind?_of_has k hmk,
        restFind?_eq_none_of_has m other k hmk, hmk]
      simp
    · have hmf : m.has k = false := by simpa using hmk
      rw [m.entriesFind?_eq_none_of_has_eq_false k hmf,
        restFind?_eq_of_not_has m other k hmf]
      by_cases hok : other.has k
      · rw [other.entriesFind?_of_has k hok, hmf, hok]
        simp
      · have hof : other.has k = false := by simpa using hok
        rw [other.entriesFind?_eq_none_of_has_eq_false k hof, hmf, hof]
        simp
  · intro k
    unfold JsMap.find?
    simp only [setAll]
    rw [List.find?_append,
      find?_filterMapKeyed m.entries
        (fun e => fn e.2 (other.superGet e.1)) k hmnd,
      find?_filterMapKeyed (other.entries.filter fun e => !(m.has e.1))
        (fun e => fn (m.superGet e.1) e.2) k hrestnd]
    by_cases hmk : m.has k
    · rw [m.entriesFind?_of_has k hmk,
        restFind?_eq_none_of_has m other k hmk, hmk]
      rcases hfab : fn (m.superGet k) (other.superGet k) with _ | u <;>
        simp [hfab]
    · have hmf : m.has k = false := by simpa using hmk
      rw [m.entriesFind?_eq_none_of_has_eq_false k hmf,
        restFind?_eq_of_not_has m other k hmf]
      by_cases hok : other.has k
      · rw [other.entriesFind?_of_has k hok, hmf, hok]
        rcases hfab : fn (m.superGet k) (other.superGet k) with _ | u <;>
          simp [hfab]
      · have hof : other.has k = false := by simpa using hok
        rw [other.entriesFind?_eq_none_of_has_eq_false k hof, hmf, hof]
        simp

/-- Witness for C7 at the inputs of the claim example: `{"Key" ↦ 10}` merged
with `{"Key" ↦ 1, "Key-1" ↦ 5}` yields `{"Key" ↦ 11, "Key-1" ↦ 5}`, and the
merge function is invoked once for `"Key"` with both values. -/
theorem setAll_spec_witness :
    (setAll (⟨[("Key", some 10)]⟩ : JsMap String Nat)
        (⟨[("Key", some 1), ("Key-1", some 5)]⟩ : JsMap String Nat)
        (fun v1 v2 => match v1, v2 with
          | some a, some b => some (a + b)
          | some a, none => some a
          | none, some b => some b
          | none, none => none)).1.find? "Key" = some (some 11) ∧
    (setAll (⟨[("Key", some 10)]⟩ : JsMap String Nat)
        (⟨[("Key", some 1), ("Key-1", some 5)]⟩ : JsMap String Nat)
        (fun v1 v2 => match v1, v2 with
          | some a, some b => some (a + b)
          | some a, none => some a
          | none, some b => some b
          | none, none => none)).1.find? "Key-1" = some (some 5) ∧
    (setAll (⟨[("Key", some 10)]⟩ : JsMap String Nat)
        (⟨[("Key", some 1), ("Key-1", some 5)]⟩ : JsMap String Nat)
        (fun v1 v2 => match v1, v2 with
          | some a, some b => some (a + b)
          | some a, none => some a
          | none, some b => some b
          | none, none => none)).2.filter (fun c => c.1 == "Key")
      = [("Key", some 10, some 1)] :=
  ⟨((setAll_spec (⟨[("Key", some 10)]⟩ : JsMap String Nat)
      (⟨[("Key", some 1), ("Key-1", some 5)]⟩ : JsMap String Nat)
      (fun v1 v2 => match v1, v2 with
        | some a, some b => some (a + b)
        | some a, none => some a
        | none, some b => some b
        | none, none => none) (by decide) (by decide)).2 "Key").trans
      (by decide),
   ((setAll_spec (⟨[("Key", some 10)]⟩ : JsMap String Nat)
      (⟨[("Key", some 1), ("Key-1", some 5)]⟩ : JsMap String Nat)
      (fun v1 v2 => match v1, v2 with
        | some a, some b => some (a + b)
        | some a, none => some a
        | none, some b => some b
        | none, none => none) (by decide) (by decide)).2 "Key-1").trans
      (by decide),
   ((setAll_spec (⟨[("Key", some 10)]⟩ : JsMap String Nat)
      (⟨[("Key", some 1), ("Key-1", some 5)]⟩ : JsMap String Nat)
      (fun v1 v2 => match v1, v2 with
        | some a, some b => some (a + b)
        | some a, none => some a
        | none, some b => some b
        | none, none => none) (by decide) (by decide)).1 "Key").trans
      (by decide)⟩

/-- C9: `union` returns a set whose members are exactly the values belonging
to either input, deduplicated by native set membership; the inputs are taken
by value and returned untouched, so neither is mutated. -/
theorem union_spec [DecidableEq V] (s other : JsSet V) :
    (∀ v, (CollectionSet.union s other).has v = (s.has v || other.has v)) ∧
    (s.elems.Nodup → (CollectionSet.union s other).elems.Nodup) := by
  refine ⟨?_, ?_⟩
  · intro v
    unfold CollectionSet.union
    rw [JsSet.has_foldl_add]
    rfl
  · intro h
    exact JsSet.foldl_add_nodup _ _ h

/-- Witness for C9 at the inputs of the claim example: the union of
`{"a"}` and `{"a", "b"}` contains `"a"` and `"b"` and holds no duplicate. -/
theorem union_spec_witness :
    (CollectionSet.union (⟨["a"]⟩ : JsSet String) ⟨["a", "b"]⟩).has "a"
        = true ∧
    (CollectionSet.union (⟨["a"]⟩ : JsSet String) ⟨["a", "b"]⟩).has "b"
        = true ∧
    (CollectionSet.union (⟨["a"]⟩ : JsSet String) ⟨["a", "b"]⟩).elems.Nodup :=
  ⟨((union_spec (⟨["a"]⟩ : JsSet String) ⟨["a", "b"]⟩).1 "a").trans
      (by decide),
   ((union_spec (⟨["a"]⟩ : JsSet String) ⟨["a", "b"]⟩).1 "b").trans
      (by decide),
   (union_spec (⟨["a"]⟩ : JsSet String) ⟨["a", "b"]⟩).2 (by decide)⟩

end CollectionUtils
